import Mathlib

/-!
# Reminder scheduling of the weekly planner (main process)

A shallow embedding of the scheduling code of `electron_weekly_planner.js`:
the global `scheduledJobs` object, `scheduleReminder`, `loadAndScheduleAll`,
the IPC handlers `task-create`, `task-update`, `task-delete` and `cron-test`.

* The `tasks` table is a list of rows keyed by the primary key `id`; only the
  columns read by the scheduling code (`id`, `title`, `desc`, `reminder_cron`)
  are kept.
* Every cron job ever returned by `cron.schedule` lives in `State.jobs`; a job
  is identified by its position there, and `scheduledJobs` maps property names
  to such positions.
* `scheduledJobs` is created by the object literal `{}`, hence property reads
  also see the members inherited from `Object.prototype`.
* Whether `cron.schedule` accepts an expression is decided by the `node-cron`
  package, which is not part of the repository: it is the parameter
  `cronValid` of every function that reaches `cron.schedule`.
-/

deriving instance DecidableEq for Except

namespace WeeklyPlanner

/-- Exceptions that leave a handler: a `TypeError` raised by calling a value
that is not a function, and the constraint error that `better-sqlite3` raises
when an `INSERT` repeats a primary key. -/
inductive JsError
  | typeError
  | sqliteConstraint
  deriving DecidableEq, Repr

/-- A task object as the scheduling code reads it, also used for a row of the
`tasks` table (`desc` and `reminder_cron` may be missing or `null`). -/
structure Task where
  id : String
  title : String
  desc : Option String
  reminder_cron : Option String
  deriving DecidableEq, Repr

/-- JavaScript truthiness of an optional string: `undefined`, `null` and the
empty string are falsy. -/
def truthy : Option String → Bool
  | some s => decide (s ≠ "")
  | none => false

/-- The expression `v || ''`. -/
def orEmpty (v : Option String) : String :=
  if truthy v then v.getD "" else ""

/-- The expression `v || null`. -/
def orNull (v : Option String) : Option String :=
  if truthy v then v else none

/-- A job object returned by `cron.schedule(expr, callback)`: the expression,
what the callback captured from the task, and whether the job is running. -/
structure Job where
  owner : String
  expr : String
  title : String
  body : String
  running : Bool
  deriving DecidableEq, Repr

/-- The main-process state that the scheduling code touches. -/
structure State where
  /-- rows of table `tasks` -/
  tasks : List Task
  /-- rows of table `subtasks`, as pairs `(id, task_id)` -/
  subtasks : List (String × String)
  /-- all cron jobs created so far -/
  jobs : List Job
  /-- own properties of the global object `scheduledJobs` -/
  scheduledJobs : List (String × Nat)
  /-- task ids reported through `console.error('Invalid cron for', ...)` -/
  consoleErrors : List String
  deriving DecidableEq, Repr

/-- State at process start before `initDb`: `let scheduledJobs = {}` and an
empty database. -/
def State.init : State :=
  { tasks := [], subtasks := [], jobs := [], scheduledJobs := [], consoleErrors := [] }

/-- State after a restart of the process: the database persists, the jobs and
the registry do not. -/
def State.restart (s : State) : State :=
  { tasks := s.tasks, subtasks := s.subtasks, jobs := [], scheduledJobs := [],
    consoleErrors := [] }

/-- Own-property lookup in `scheduledJobs`. -/
def ownGet : List (String × Nat) → String → Option Nat
  | [], _ => none
  | (k, h) :: rest, key => if k = key then some h else ownGet rest key

/-- The assignment `scheduledJobs[key] = job`: overwrite an own property or
add a new one. -/
def ownSet : List (String × Nat) → String → Nat → List (String × Nat)
  | [], key, h => [(key, h)]
  | (k, v) :: rest, key, h =>
    if k = key then (k, h) :: rest else (k, v) :: ownSet rest key h

/-- The statement `delete scheduledJobs[key]`. -/
def ownDelete (reg : List (String × Nat)) (key : String) : List (String × Nat) :=
  reg.filter (fun p => decide (p.1 ≠ key))

/-- Own property names of the registry in insertion order. `Object.keys` lists
the same names, with integer-like names moved to the front, so the two agree
as sets. -/
def keys (reg : List (String × Nat)) : List String :=
  reg.map Prod.fst

/-- Names of the members every object created by `{}` inherits from
`Object.prototype`. -/
def objectPrototypeKeys : List String :=
  ["constructor", "__proto__", "hasOwnProperty", "isPrototypeOf",
   "propertyIsEnumerable", "toLocaleString", "toString", "valueOf",
   "__defineGetter__", "__defineSetter__", "__lookupGetter__", "__lookupSetter__"]

/-- What the read `scheduledJobs[key]` evaluates to. -/
inductive PropValue
  | job (h : Nat)
  | inherited
  | undefined
  deriving DecidableEq, Repr

/-- The read `scheduledJobs[key]`: an own property wins, then the prototype
chain is searched. Inherited members are functions or objects, so truthy, and
none of them has a `stop` method. -/
def getProperty (reg : List (String × Nat)) (key : String) : PropValue :=
  match ownGet reg key with
  | some h => .job h
  | none => if key ∈ objectPrototypeKeys then .inherited else .undefined

/-- The call `job.stop()` on the job at position `h`. -/
def stopJob : List Job → Nat → List Job
  | [], _ => []
  | j :: rest, 0 => { j with running := false } :: rest
  | j :: rest, h + 1 => j :: stopJob rest h

/-- The job that `cron.schedule(task.reminder_cron, callback)` returns for an
accepted expression; node-cron starts it at once. -/
def newJob (t : Task) (expr : String) : Job :=
  { owner := t.id, expr := expr, title := "Hatırlatma: " ++ t.title,
    body := orEmpty t.desc, running := true }

/-- Function `scheduleReminder(task)`. The result pairs the state left behind
with either the normal completion or the exception thrown. -/
def scheduleReminder (cronValid : String → Bool) (s : State) (task : Option Task) :
    State × Except JsError Unit :=
  match task with
  | none => (s, .ok ())
  | some t =>
    if !truthy t.reminder_cron then (s, .ok ())
    else
      match getProperty s.scheduledJobs t.id with
      | .inherited => (s, .error .typeError)
      | v =>
        let s1 : State :=
          match v with
          | .job h => { s with jobs := stopJob s.jobs h }
          | _ => s
        let expr := t.reminder_cron.getD ""
        if cronValid expr then
          ({ s1 with jobs := s1.jobs ++ [newJob t expr],
                     scheduledJobs := ownSet s1.scheduledJobs t.id s1.jobs.length },
           .ok ())
        else
          ({ s1 with consoleErrors := s1.consoleErrors ++ [t.id] }, .ok ())

/-- The loop `for(const r of rows) scheduleReminder(r)`. -/
def scheduleRows (cronValid : String → Bool) : State → List Task → State × Except JsError Unit
  | s, [] => (s, .ok ())
  | s, r :: rest =>
    match scheduleReminder cronValid s (some r) with
    | (s1, .ok _) => scheduleRows cronValid s1 rest
    | (s1, .error e) => (s1, .error e)

/-- Function `loadAndScheduleAll()`. -/
def loadAndScheduleAll (cronValid : String → Bool) (s : State) : State × Except JsError Unit :=
  scheduleRows cronValid s s.tasks

/-- The `tasks` table after the `INSERT` of handler `task-create`, which stores
`t.desc||''` and `t.reminder_cron||null`. -/
def insertRow (s : State) (t : Task) : State :=
  { s with tasks := s.tasks ++
      [{ id := t.id, title := t.title, desc := some (orEmpty t.desc),
         reminder_cron := orNull t.reminder_cron }] }

/-- The `tasks` table after the `UPDATE ... WHERE id=?` of handler
`task-update`; a missing id changes no row. -/
def updateRow (s : State) (t : Task) : State :=
  { s with tasks := s.tasks.map (fun r =>
      if r.id = t.id then
        { id := r.id, title := t.title, desc := some (orEmpty t.desc),
          reminder_cron := orNull t.reminder_cron }
      else r) }

/-- The database after the two `DELETE` statements of handler `task-delete`. -/
def deleteRows (s : State) (id : String) : State :=
  { s with tasks := s.tasks.filter (fun r => decide (r.id ≠ id)),
           subtasks := s.subtasks.filter (fun p => decide (p.2 ≠ id)) }

/-- The statement `return true` that follows a call: reached only when the call
did not throw. -/
def thenReturnTrue : State × Except JsError Unit → State × Except JsError Bool
  | (s, .ok _) => (s, .ok true)
  | (s, .error e) => (s, .error e)

/-- Handler `task-create`. -/
def taskCreate (cronValid : String → Bool) (s : State) (t : Task) :
    State × Except JsError Bool :=
  if s.tasks.any (fun r => decide (r.id = t.id)) then (s, .error .sqliteConstraint)
  else
    let s1 := insertRow s t
    if truthy t.reminder_cron then thenReturnTrue (scheduleReminder cronValid s1 (some t))
    else (s1, .ok true)

/-- Handler `task-update`. -/
def taskUpdate (cronValid : String → Bool) (s : State) (t : Task) :
    State × Except JsError Bool :=
  let s1 := updateRow s t
  thenReturnTrue (scheduleReminder cronValid s1 (some t))

/-- Handler `task-delete`. -/
def taskDelete (s : State) (id : String) : State × Except JsError Bool :=
  let s1 := deleteRows s id
  match getProperty s1.scheduledJobs id with
  | .job h =>
    ({ s1 with jobs := stopJob s1.jobs h, scheduledJobs := ownDelete s1.scheduledJobs id },
     .ok true)
  | .inherited => (s1, .error .typeError)
  | .undefined => (s1, .ok true)

/-- A call received by the main process. -/
inductive Op
  | create (t : Task)
  | update (t : Task)
  | delete (id : String)
  | schedule (task : Option Task)
  deriving DecidableEq, Repr

/-- State left behind by one call, whether it returned or threw. -/
def step (cronValid : String → Bool) (s : State) : Op → State
  | .create t => (taskCreate cronValid s t).1
  | .update t => (taskUpdate cronValid s t).1
  | .delete id => (taskDelete s id).1
  | .schedule task => (scheduleReminder cronValid s task).1

/-- State after a sequence of calls, starting from `s`. -/
def run (cronValid : String → Bool) (s : State) (ops : List Op) : State :=
  ops.foldl (step cronValid) s

/-- The `cron-parser` package as the handler `cron-test` uses it. The package
is not part of the repository, so its three operations are parameters:
`parseExpression(expr)` returns an iterator or throws an error with a message,
`it.next()` returns a date and advances the iterator or throws, and
`toString()` renders a date. -/
structure CronParser (It Date : Type) where
  parseExpression : String → Except String It
  next : It → Except String (Date × It)
  toString : Date → String

/-- Value returned by handler `cron-test`: `{ success:true, times }` or
`{ success:false, error }`. -/
inductive CronTestReply
  | success (times : List String)
  | failure (error : String)
  deriving DecidableEq, Repr

/-- The loop `for(let i=0;i<5;i++) times.push(it.next().toString())` with
`n` iterations left; an exception leaves the loop with its message. -/
def cronTestLoop {It Date : Type} (P : CronParser It Date) :
    Nat → It → List String → Except String (List String)
  | 0, _, times => .ok times
  | n + 1, it, times =>
    match P.next it with
    | .error m => .error m
    | .ok (d, it2) => cronTestLoop P n it2 (times ++ [P.toString d])

/-- Handler `cron-test`. -/
def cronTest {It Date : Type} (P : CronParser It Date) (expr : String) : CronTestReply :=
  match P.parseExpression expr with
  | .error m => .failure m
  | .ok it =>
    match cronTestLoop P 5 it [] with
    | .error m => .failure m
    | .ok times => .success times

/-- The results of `n` successive `next()` calls on an iterator, in call order,
or the message of the first call that fails (stated independently of the
handler, for comparison with it). -/
def successiveNext {It Date : Type} (P : CronParser It Date) : Nat → It → Except String (List Date)
  | 0, _ => .ok []
  | n + 1, it =>
    match P.next it with
    | .error m => .error m
    | .ok (d, it2) =>
      match successiveNext P n it2 with
      | .error m => .error m
      | .ok ds => .ok (d :: ds)

/-- A validator used to evaluate the code on concrete inputs: like node-cron
it accepts `*/5 * * * *` and rejects `bogus`; it accepts nothing else. -/
def sampleCron (e : String) : Bool :=
  decide (e = "*/5 * * * *")

/-- A row gets a job at reconciliation: its `reminder_cron` is present and
`cron.schedule` accepts it. -/
def schedulable (cronValid : String → Bool) (r : Task) : Bool :=
  truthy r.reminder_cron && cronValid (r.reminder_cron.getD "")

/-- A task with an accepted schedule. -/
def taskA : Task :=
  { id := "A", title := "Stand-up", desc := none, reminder_cron := some "*/5 * * * *" }

/-- The state after `task-create` of `taskA` on a fresh process. -/
def stateA : State := (taskCreate sampleCron State.init taskA).1

/-- The same task with a schedule that is rejected. -/
def taskBogus : Task :=
  { taskA with reminder_cron := some "bogus" }

/-- The rows of the example: `A` with an accepted schedule, `B` with a rejected
one, `C` without a schedule. -/
def exampleRows : List Task :=
  [{ id := "A", title := "a", desc := some "", reminder_cron := some "*/5 * * * *" },
   { id := "B", title := "b", desc := some "", reminder_cron := some "bogus" },
   { id := "C", title := "c", desc := some "", reminder_cron := none }]

/-- Every running job is the one that the registry stores under the id of the
task it was created for. -/
def Live (jobs : List Job) (reg : List (String × Nat)) : Prop :=
  ∀ (h : Nat) (j : Job), jobs[h]? = some j → j.running = true → ownGet reg j.owner = some h

/-- No job created for `id` is running. -/
def Silent (jobs : List Job) (id : String) : Prop :=
  ∀ (h : Nat) (j : Job), jobs[h]? = some j → j.owner = id → j.running = false

/-- Every entry of the registry points at a job created for its key. -/
def Owned (jobs : List Job) (reg : List (String × Nat)) : Prop :=
  ∀ (k : String) (h : Nat), ownGet reg k = some h → ∃ j, jobs[h]? = some j ∧ j.owner = k

/-- The job list after `if(scheduledJobs[id]) scheduledJobs[id].stop()` when the
property read finds an own property or nothing. -/
def stoppedJobs (s : State) (id : String) : List Job :=
  match ownGet s.scheduledJobs id with
  | some h => stopJob s.jobs h
  | none => s.jobs

/-- The invariant of the scheduler state: running jobs are registered. -/
def State.Inv (s : State) : Prop :=
  Live s.jobs s.scheduledJobs

/-! ## Registry and job-list lemmas -/

theorem ownGet_ownSet (reg : List (String × Nat)) (k k2 : String) (h : Nat) :
    ownGet (ownSet reg k h) k2 = if k = k2 then some h else ownGet reg k2 := by
  induction reg with
  | nil => simp [ownSet, ownGet]
  | cons p rest ih =>
    obtain ⟨a, v⟩ := p
    simp only [ownSet]
    by_cases hak : a = k
    · simp only [hak, if_true, ownGet]
      split_ifs <;> rfl
    · simp only [hak, if_false, ownGet, ih]
      by_cases ha2 : a = k2
      · have hk2 : ¬ k = k2 := fun e => hak (ha2.trans e.symm)
        simp [ha2, hk2]
      · simp [ha2]

theorem ownGet_ownDelete (reg : List (String × Nat)) (k k2 : String) :
    ownGet (ownDelete reg k) k2 = if k2 = k then none else ownGet reg k2 := by
  induction reg with
  | nil => simp [ownDelete, ownGet]
  | cons p rest ih =>
    obtain ⟨a, v⟩ := p
    unfold ownDelete at ih ⊢
    by_cases hak : a = k
    · have hf : List.filter (fun p => decide (p.1 ≠ k)) ((a, v) :: rest)
          = List.filter (fun p => decide (p.1 ≠ k)) rest := by
        simp [List.filter, hak]
      rw [hf, ih]
      by_cases hk2 : k2 = k
      · simp [hk2]
      · have ha2 : ¬ a = k2 := fun e => hk2 (e.symm.trans hak)
        simp [hk2, ownGet, ha2]
    · have hf : List.filter (fun p => decide (p.1 ≠ k)) ((a, v) :: rest)
          = (a, v) :: List.filter (fun p => decide (p.1 ≠ k)) rest := by
        simp [List.filter, hak]
      rw [hf]
      simp only [ownGet, ih]
      by_cases ha2 : a = k2
      · have hk2 : ¬ k2 = k := fun e => hak (ha2.trans e)
        simp [ha2, hk2]
      · simp [ha2]

theorem length_stopJob (jobs : List Job) (h : Nat) : (stopJob jobs h).length = jobs.length := by
  induction jobs generalizing h with
  | nil => simp [stopJob]
  | cons j rest ih =>
    cases h with
    | zero => simp [stopJob]
    | succ n => simp [stopJob, ih]

theorem getElem?_stopJob (jobs : List Job) (h i : Nat) :
    (stopJob jobs h)[i]? =
      if i = h then (jobs[i]?).map (fun j => { j with running := false }) else jobs[i]? := by
  induction jobs generalizing h i with
  | nil => simp [stopJob]
  | cons j rest ih =>
    cases h with
    | zero =>
      cases i with
      | zero => simp [stopJob]
      | succ m => simp [stopJob]
    | succ n =>
      cases i with
      | zero => simp [stopJob]
      | succ m => simp [stopJob, ih]

/-! ## The running jobs are the registered ones -/

theorem live_nil : Live [] [] := by
  intro h j hj
  simp at hj

theorem live_stopJob {jobs : List Job} {reg : List (String × Nat)} (hl : Live jobs reg)
    (h : Nat) : Live (stopJob jobs h) reg := by
  intro i j hj hrun
  rw [getElem?_stopJob] at hj
  by_cases hih : i = h
  · rw [if_pos hih] at hj
    cases hji : jobs[i]? with
    | none => simp [hji] at hj
    | some j0 =>
      simp [hji] at hj
      subst hj
      simp at hrun
  · rw [if_neg hih] at hj
    exact hl i j hj hrun

theorem silent_of_none {jobs : List Job} {reg : List (String × Nat)} (hl : Live jobs reg)
    {id : String} (hn : ownGet reg id = none) : Silent jobs id := by
  intro h j hj ho
  by_contra hrun
  have hr : j.running = true := by simpa using hrun
  have := hl h j hj hr
  rw [ho, hn] at this
  cases this

theorem silent_stopJob {jobs : List Job} {reg : List (String × Nat)} (hl : Live jobs reg)
    {id : String} {h : Nat} (hg : ownGet reg id = some h) : Silent (stopJob jobs h) id := by
  intro i j hj ho
  rw [getElem?_stopJob] at hj
  by_cases hih : i = h
  · rw [if_pos hih] at hj
    cases hji : jobs[i]? with
    | none => simp [hji] at hj
    | some j0 =>
      simp [hji] at hj
      subst hj
      rfl
  · rw [if_neg hih] at hj
    by_contra hrun
    have hr : j.running = true := by simpa using hrun
    have := hl i j hj hr
    rw [ho, hg] at this
    exact hih (Option.some.inj this).symm

theorem live_append {jobs : List Job} {reg : List (String × Nat)} (hl : Live jobs reg)
    {id : String} (hs : Silent jobs id) (nj : Job) (ho : nj.owner = id) :
    Live (jobs ++ [nj]) (ownSet reg id jobs.length) := by
  intro i j hj hrun
  rw [ownGet_ownSet]
  by_cases hlt : i < jobs.length
  · rw [List.getElem?_append_left hlt] at hj
    have hne : ¬ id = j.owner := by
      intro e
      have := hs i j hj e.symm
      rw [this] at hrun
      cases hrun
    rw [if_neg hne]
    exact hl i j hj hrun
  · have hge : jobs.length ≤ i := Nat.le_of_not_lt hlt
    rw [List.getElem?_append_right hge] at hj
    have hi0 : i - jobs.length = 0 := by
      by_contra hne
      have : ([nj] : List Job)[i - jobs.length]? = none := by
        apply List.getElem?_eq_none
        simp
        omega
      rw [this] at hj
      cases hj
    rw [hi0] at hj
    simp at hj
    subst hj
    rw [if_pos ho.symm]
    congr 1
    omega

theorem live_ownDelete {jobs : List Job} {reg : List (String × Nat)} (hl : Live jobs reg)
    {id : String} (hs : Silent jobs id) : Live jobs (ownDelete reg id) := by
  intro i j hj hrun
  rw [ownGet_ownDelete]
  have hne : ¬ j.owner = id := by
    intro e
    have := hs i j hj e
    rw [this] at hrun
    cases hrun
  rw [if_neg hne]
  exact hl i j hj hrun

/-! ## What the property read returns -/

theorem getProperty_eq_job {reg : List (String × Nat)} {k : String} {h : Nat} :
    getProperty reg k = .job h ↔ ownGet reg k = some h := by
  unfold getProperty
  cases hg : ownGet reg k with
  | none => by_cases hk : k ∈ objectPrototypeKeys <;> simp [hk]
  | some v => simp

theorem getProperty_eq_inherited {reg : List (String × Nat)} {k : String} :
    getProperty reg k = .inherited ↔ ownGet reg k = none ∧ k ∈ objectPrototypeKeys := by
  unfold getProperty
  cases hg : ownGet reg k with
  | none => by_cases hk : k ∈ objectPrototypeKeys <;> simp [hk]
  | some v => simp

theorem getProperty_eq_undefined {reg : List (String × Nat)} {k : String} :
    getProperty reg k = .undefined ↔ ownGet reg k = none ∧ k ∉ objectPrototypeKeys := by
  unfold getProperty
  cases hg : ownGet reg k with
  | none => by_cases hk : k ∈ objectPrototypeKeys <;> simp [hk]
  | some v => simp

/-! ## Effect of `scheduleReminder` -/

theorem scheduleReminder_none (cronValid : String → Bool) (s : State) :
    scheduleReminder cronValid s none = (s, .ok ()) := rfl

theorem scheduleReminder_falsy (cronValid : String → Bool) (s : State) (t : Task)
    (ht : truthy t.reminder_cron = false) :
    scheduleReminder cronValid s (some t) = (s, .ok ()) := by
  simp [scheduleReminder, ht]

theorem scheduleReminder_inherited (cronValid : String → Bool) (s : State) (t : Task)
    (ht : truthy t.reminder_cron = true)
    (hp : getProperty s.scheduledJobs t.id = .inherited) :
    scheduleReminder cronValid s (some t) = (s, .error .typeError) := by
  simp [scheduleReminder, ht, hp]

theorem scheduleReminder_valid (cronValid : String → Bool) (s : State) (t : Task)
    (ht : truthy t.reminder_cron = true)
    (hp : getProperty s.scheduledJobs t.id ≠ .inherited)
    (hv : cronValid (t.reminder_cron.getD "") = true) :
    scheduleReminder cronValid s (some t) =
      ({ s with jobs := stoppedJobs s t.id ++ [newJob t (t.reminder_cron.getD "")],
                scheduledJobs := ownSet s.scheduledJobs t.id (stoppedJobs s t.id).length },
       .ok ()) := by
  unfold scheduleReminder stoppedJobs
  cases hg : getProperty s.scheduledJobs t.id with
  | inherited => exact absurd hg hp
  | job h =>
    have := getProperty_eq_job.mp hg
    simp [ht, hv, hg, this]
  | undefined =>
    have := (getProperty_eq_undefined.mp hg).1
    simp [ht, hv, hg, this]

theorem scheduleReminder_invalid (cronValid : String → Bool) (s : State) (t : Task)
    (ht : truthy t.reminder_cron = true)
    (hp : getProperty s.scheduledJobs t.id ≠ .inherited)
    (hv : cronValid (t.reminder_cron.getD "") = false) :
    scheduleReminder cronValid s (some t) =
      ({ s with jobs := stoppedJobs s t.id,
                consoleErrors := s.consoleErrors ++ [t.id] },
       .ok ()) := by
  unfold scheduleReminder stoppedJobs
  cases hg : getProperty s.scheduledJobs t.id with
  | inherited => exact absurd hg hp
  | job h =>
    have := getProperty_eq_job.mp hg
    simp [ht, hv, hg, this]
  | undefined =>
    have := (getProperty_eq_undefined.mp hg).1
    simp [ht, hv, hg, this]

theorem length_stoppedJobs (s : State) (id : String) :
    (stoppedJobs s id).length = s.jobs.length := by
  unfold stoppedJobs
  cases ownGet s.scheduledJobs id with
  | none => rfl
  | some h => exact length_stopJob s.jobs h

theorem live_stoppedJobs {s : State} (hl : s.Inv) (id : String) :
    Live (stoppedJobs s id) s.scheduledJobs := by
  unfold stoppedJobs
  cases hg : ownGet s.scheduledJobs id with
  | none => exact hl
  | some h => exact live_stopJob hl h

theorem silent_stoppedJobs {s : State} (hl : s.Inv) (id : String) :
    Silent (stoppedJobs s id) id := by
  unfold stoppedJobs
  cases hg : ownGet s.scheduledJobs id with
  | none => exact silent_of_none hl hg
  | some h => exact silent_stopJob hl hg

theorem live_scheduleReminder (cronValid : String → Bool) {s : State} (hl : s.Inv)
    (task : Option Task) : (scheduleReminder cronValid s task).1.Inv := by
  cases task with
  | none => exact hl
  | some t =>
    cases ht : truthy t.reminder_cron with
    | false => rw [scheduleReminder_falsy cronValid s t ht]; exact hl
    | true =>
      by_cases hp : getProperty s.scheduledJobs t.id = .inherited
      · rw [scheduleReminder_inherited cronValid s t ht hp]; exact hl
      · cases hv : cronValid (t.reminder_cron.getD "") with
        | true =>
          rw [scheduleReminder_valid cronValid s t ht hp hv]
          exact live_append (live_stoppedJobs hl t.id) (silent_stoppedJobs hl t.id)
            (newJob t (t.reminder_cron.getD "")) rfl
        | false =>
          rw [scheduleReminder_invalid cronValid s t ht hp hv]
          exact live_stoppedJobs hl t.id

/-! ## Effect of the handlers -/

theorem taskCreate_duplicate (cronValid : String → Bool) (s : State) (t : Task)
    (hd : s.tasks.any (fun r => decide (r.id = t.id)) = true) :
    taskCreate cronValid s t = (s, .error .sqliteConstraint) := by
  simp only [taskCreate, hd, if_true]

theorem taskCreate_falsy (cronValid : String → Bool) (s : State) (t : Task)
    (hd : s.tasks.any (fun r => decide (r.id = t.id)) = false)
    (ht : truthy t.reminder_cron = false) :
    taskCreate cronValid s t = (insertRow s t, .ok true) := by
  simp [taskCreate, hd, ht, insertRow]

theorem thenReturnTrue_fst (r : State × Except JsError Unit) : (thenReturnTrue r).1 = r.1 := by
  rcases r with ⟨s, _ | _⟩ <;> rfl

theorem thenReturnTrue_snd (r : State × Except JsError Unit) :
    (thenReturnTrue r).2 = r.2.map (fun _ => true) := by
  rcases r with ⟨s, _ | _⟩ <;> rfl

theorem taskCreate_truthy (cronValid : String → Bool) (s : State) (t : Task)
    (hd : s.tasks.any (fun r => decide (r.id = t.id)) = false)
    (ht : truthy t.reminder_cron = true) :
    taskCreate cronValid s t
      = thenReturnTrue (scheduleReminder cronValid (insertRow s t) (some t)) := by
  unfold taskCreate
  rw [if_neg (by simp [hd])]
  simp only [ht, if_true, insertRow]

theorem taskCreate_truthy_fst (cronValid : String → Bool) (s : State) (t : Task)
    (hd : s.tasks.any (fun r => decide (r.id = t.id)) = false)
    (ht : truthy t.reminder_cron = true) :
    (taskCreate cronValid s t).1 = (scheduleReminder cronValid (insertRow s t) (some t)).1 := by
  rw [taskCreate_truthy cronValid s t hd ht, thenReturnTrue_fst]

theorem taskUpdate_eq (cronValid : String → Bool) (s : State) (t : Task) :
    taskUpdate cronValid s t
      = thenReturnTrue (scheduleReminder cronValid (updateRow s t) (some t)) := rfl

/-- A `task-update` whose `reminder_cron` is empty or missing writes the row and
touches neither the jobs nor the registry. -/
theorem taskUpdate_falsy (cronValid : String → Bool) (s : State) (t : Task)
    (ht : truthy t.reminder_cron = false) :
    taskUpdate cronValid s t = (updateRow s t, .ok true) := by
  rw [taskUpdate_eq, scheduleReminder_falsy cronValid (updateRow s t) t ht]
  rfl

theorem taskUpdate_fst (cronValid : String → Bool) (s : State) (t : Task) :
    (taskUpdate cronValid s t).1 = (scheduleReminder cronValid (updateRow s t) (some t)).1 := by
  rw [taskUpdate_eq, thenReturnTrue_fst]

theorem taskDelete_job (s : State) (id : String) (h : Nat)
    (hg : ownGet s.scheduledJobs id = some h) :
    taskDelete s id =
      ({ deleteRows s id with jobs := stopJob s.jobs h,
                              scheduledJobs := ownDelete s.scheduledJobs id }, .ok true) := by
  have hp : getProperty s.scheduledJobs id = .job h := getProperty_eq_job.mpr hg
  simp [taskDelete, deleteRows, hp]

theorem taskDelete_inherited (s : State) (id : String)
    (hp : getProperty s.scheduledJobs id = .inherited) :
    taskDelete s id = (deleteRows s id, .error .typeError) := by
  simp [taskDelete, deleteRows, hp]

theorem taskDelete_undefined (s : State) (id : String)
    (hp : getProperty s.scheduledJobs id = .undefined) :
    taskDelete s id = (deleteRows s id, .ok true) := by
  simp [taskDelete, deleteRows, hp]

theorem inv_taskCreate (cronValid : String → Bool) {s : State} (hl : s.Inv) (t : Task) :
    (taskCreate cronValid s t).1.Inv := by
  cases hd : s.tasks.any (fun r => decide (r.id = t.id)) with
  | true => rw [taskCreate_duplicate cronValid s t hd]; exact hl
  | false =>
    cases ht : truthy t.reminder_cron with
    | false => rw [taskCreate_falsy cronValid s t hd ht]; exact hl
    | true =>
      rw [taskCreate_truthy_fst cronValid s t hd ht]
      exact live_scheduleReminder cronValid (s := insertRow s t) hl (some t)

theorem inv_taskUpdate (cronValid : String → Bool) {s : State} (hl : s.Inv) (t : Task) :
    (taskUpdate cronValid s t).1.Inv := by
  rw [taskUpdate_fst]
  exact live_scheduleReminder cronValid (s := updateRow s t) hl (some t)

theorem inv_taskDelete {s : State} (hl : s.Inv) (id : String) : (taskDelete s id).1.Inv := by
  cases hp : getProperty s.scheduledJobs id with
  | job h =>
    have hg := getProperty_eq_job.mp hp
    rw [taskDelete_job s id h hg]
    exact live_ownDelete (live_stopJob hl h) (silent_stopJob hl hg)
  | inherited => rw [taskDelete_inherited s id hp]; exact hl
  | undefined => rw [taskDelete_undefined s id hp]; exact hl

theorem inv_step (cronValid : String → Bool) {s : State} (hl : s.Inv) (op : Op) :
    (step cronValid s op).Inv := by
  cases op with
  | create t => exact inv_taskCreate cronValid hl t
  | update t => exact inv_taskUpdate cronValid hl t
  | delete id => exact inv_taskDelete hl id
  | schedule task => exact live_scheduleReminder cronValid hl task

theorem inv_run (cronValid : String → Bool) {s : State} (hl : s.Inv) (ops : List Op) :
    (run cronValid s ops).Inv := by
  induction ops generalizing s with
  | nil => exact hl
  | cons op rest ih => exact ih (inv_step cronValid hl op)

theorem inv_init : State.init.Inv := live_nil

/-! ## At most one running job per task id -/

theorem countP_le_one_of_unique {α : Type} (p : α → Bool) (l : List α)
    (hu : ∀ (i k : Nat) (a b : α), l[i]? = some a → l[k]? = some b →
      p a = true → p b = true → i = k) :
    l.countP p ≤ 1 := by
  induction l with
  | nil => simp
  | cons x rest ih =>
    have hrest : rest.countP p ≤ 1 := by
      apply ih
      intro i k a b ha hb hpa hpb
      have := hu (i + 1) (k + 1) a b (by simpa using ha) (by simpa using hb) hpa hpb
      omega
    cases hx : p x with
    | false =>
      rw [List.countP_cons_of_neg]
      · exact hrest
      · simp [hx]
    | true =>
      rw [List.countP_cons_of_pos _ _ hx]
      have hzero : rest.countP p = 0 := by
        rw [List.countP_eq_zero]
        intro b hb hpb
        obtain ⟨k, hk, hkb⟩ := List.getElem_of_mem hb
        have hget : rest[k]? = some b := by
          rw [List.getElem?_eq_getElem hk, hkb]
        have := hu 0 (k + 1) x b (by simp) (by simpa using hget) hx hpb
        omega
      omega

theorem live_unique {jobs : List Job} {reg : List (String × Nat)} (hl : Live jobs reg)
    (id : String) (h k : Nat) (a b : Job) (ha : jobs[h]? = some a) (hb : jobs[k]? = some b)
    (hoa : a.owner = id) (hob : b.owner = id) (hra : a.running = true)
    (hrb : b.running = true) : h = k := by
  have e1 := hl h a ha hra
  have e2 := hl k b hb hrb
  rw [hoa] at e1
  rw [hob, e1] at e2
  exact Option.some.inj e2

theorem live_countP_le_one {jobs : List Job} {reg : List (String × Nat)} (hl : Live jobs reg)
    (id : String) : jobs.countP (fun j => decide (j.owner = id) && j.running) ≤ 1 := by
  apply countP_le_one_of_unique
  intro i k a b ha hb hpa hpb
  simp only [Bool.and_eq_true, decide_eq_true_eq] at hpa hpb
  exact live_unique hl id i k a b ha hb hpa.1 hpb.1 hpa.2 hpb.2

/-- C1. In every state reached from the empty registry by task-create,
task-update, task-delete and scheduleReminder calls (returning or throwing),
and for every task id: a running job created for that id is the job stored at
`scheduledJobs[id]`, two running jobs created for that id are the same job,
and so at most one of the jobs created for the id is running. -/
theorem at_most_one_live_trigger (cronValid : String → Bool) (ops : List Op) (id : String) :
    (∀ (h : Nat) (j : Job), (run cronValid State.init ops).jobs[h]? = some j →
        j.owner = id → j.running = true →
        ownGet (run cronValid State.init ops).scheduledJobs id = some h) ∧
    (∀ (h k : Nat) (a b : Job), (run cronValid State.init ops).jobs[h]? = some a →
        (run cronValid State.init ops).jobs[k]? = some b →
        a.owner = id → b.owner = id → a.running = true → b.running = true → h = k) ∧
    ((run cronValid State.init ops).jobs.countP
        (fun j => decide (j.owner = id) && j.running) ≤ 1) := by
  have hinv : (run cronValid State.init ops).Inv := inv_run cronValid inv_init ops
  have h1 : ∀ (h : Nat) (j : Job), (run cronValid State.init ops).jobs[h]? = some j →
      j.owner = id → j.running = true →
      ownGet (run cronValid State.init ops).scheduledJobs id = some h := by
    intro h j hj ho hr
    have := hinv h j hj hr
    rwa [ho] at this
  exact ⟨h1, live_unique hinv id, live_countP_le_one hinv id⟩

/-- C4. After the task-delete handler has run for an id in any reachable state
(also when it threw), `scheduledJobs` has no own entry for the id and no job
created for that id is running. -/
theorem delete_cancels (cronValid : String → Bool) (ops : List Op) (id : String) :
    ownGet (taskDelete (run cronValid State.init ops) id).1.scheduledJobs id = none ∧
    (∀ (h : Nat) (j : Job), (taskDelete (run cronValid State.init ops) id).1.jobs[h]? = some j →
      j.owner = id → j.running = false) := by
  have hinv : (run cronValid State.init ops).Inv := inv_run cronValid inv_init ops
  generalize run cronValid State.init ops = s at hinv
  cases hp : getProperty s.scheduledJobs id with
  | job h =>
    have hg := getProperty_eq_job.mp hp
    rw [taskDelete_job s id h hg]
    refine ⟨?_, silent_stopJob hinv hg⟩
    show ownGet (ownDelete s.scheduledJobs id) id = none
    rw [ownGet_ownDelete, if_pos rfl]
  | inherited =>
    rw [taskDelete_inherited s id hp]
    have hg := (getProperty_eq_inherited.mp hp).1
    exact ⟨hg, silent_of_none hinv hg⟩
  | undefined =>
    rw [taskDelete_undefined s id hp]
    have hg := (getProperty_eq_undefined.mp hp).1
    exact ⟨hg, silent_of_none hinv hg⟩

/-! ## The `cron-test` handler -/

theorem cronTestLoop_eq {It Date : Type} (P : CronParser It Date) (n : Nat) (it : It)
    (times : List String) :
    cronTestLoop P n it times =
      (successiveNext P n it).map (fun ds => times ++ ds.map P.toString) := by
  induction n generalizing it times with
  | zero => simp [cronTestLoop, successiveNext, Except.map]
  | succ n ih =>
    simp only [cronTestLoop, successiveNext]
    cases hn : P.next it with
    | error m => simp [Except.map]
    | ok r =>
      obtain ⟨d, it2⟩ := r
      simp only [ih]
      cases hs : successiveNext P n it2 with
      | error m => simp [Except.map]
      | ok ds => simp [Except.map]

theorem length_successiveNext {It Date : Type} (P : CronParser It Date) (n : Nat) (it : It)
    (ds : List Date) (h : successiveNext P n it = .ok ds) : ds.length = n := by
  induction n generalizing it ds with
  | zero =>
    simp only [successiveNext] at h
    cases h
    rfl
  | succ n ih =>
    simp only [successiveNext] at h
    cases hn : P.next it with
    | error m => simp [hn] at h
    | ok r =>
      obtain ⟨d, it2⟩ := r
      cases hs : successiveNext P n it2 with
      | error m => simp [hn, hs] at h
      | ok ds2 =>
        simp [hn, hs] at h
        subst h
        simp [ih it2 ds2 hs]

/-- C9. The cron-test handler always returns a reply. A failure reply carries
the message of the error thrown by `parseExpression` or by the first failing
`next()` call among the five; a success reply holds exactly 5 entries, the
renderings of the results of 5 successive `next()` calls in call order. -/
theorem cronTest_reply {It Date : Type} (P : CronParser It Date) (expr : String) :
    match cronTest P expr with
    | .failure m =>
      P.parseExpression expr = .error m ∨
        ∃ it, P.parseExpression expr = .ok it ∧ successiveNext P 5 it = .error m
    | .success times =>
      times.length = 5 ∧
        ∃ it ds, P.parseExpression expr = .ok it ∧ successiveNext P 5 it = .ok ds ∧
          times = ds.map P.toString := by
  unfold cronTest
  cases hp : P.parseExpression expr with
  | error m => simp
  | ok it =>
    simp only [cronTestLoop_eq]
    cases hs : successiveNext P 5 it with
    | error m =>
      simp [Except.map]
      exact hs
    | ok ds =>
      have hl := length_successiveNext P 5 it ds hs
      simp [Except.map, hl]
      exact ⟨ds, hs, rfl⟩

/-! ## Registry entries point at jobs of their own key -/

theorem owned_stopJob {jobs : List Job} {reg : List (String × Nat)} (ho : Owned jobs reg)
    (h : Nat) : Owned (stopJob jobs h) reg := by
  intro k i hk
  obtain ⟨j, hj, hjo⟩ := ho k i hk
  rw [getElem?_stopJob]
  by_cases hih : i = h
  · rw [if_pos hih, hj]
    exact ⟨{ j with running := false }, rfl, hjo⟩
  · rw [if_neg hih]
    exact ⟨j, hj, hjo⟩

theorem owned_append {jobs : List Job} {reg : List (String × Nat)} (ho : Owned jobs reg)
    (id : String) (nj : Job) (hn : nj.owner = id) :
    Owned (jobs ++ [nj]) (ownSet reg id jobs.length) := by
  intro k i hk
  rw [ownGet_ownSet] at hk
  by_cases hik : id = k
  · rw [if_pos hik] at hk
    have hi : jobs.length = i := Option.some.inj hk
    subst hi
    subst hik
    exact ⟨nj, by simp, hn⟩
  · rw [if_neg hik] at hk
    obtain ⟨j, hj, hjo⟩ := ho k i hk
    have hlt : i < jobs.length := by
      by_contra hge
      rw [List.getElem?_eq_none (Nat.le_of_not_lt hge)] at hj
      cases hj
    exact ⟨j, by rw [List.getElem?_append_left hlt]; exact hj, hjo⟩

theorem owned_ownDelete {jobs : List Job} {reg : List (String × Nat)} (ho : Owned jobs reg)
    (id : String) : Owned jobs (ownDelete reg id) := by
  intro k i hk
  rw [ownGet_ownDelete] at hk
  by_cases hki : k = id
  · rw [if_pos hki] at hk
    cases hk
  · rw [if_neg hki] at hk
    exact ho k i hk

theorem owned_stoppedJobs {s : State} (ho : Owned s.jobs s.scheduledJobs) (id : String) :
    Owned (stoppedJobs s id) s.scheduledJobs := by
  unfold stoppedJobs
  cases ownGet s.scheduledJobs id with
  | none => exact ho
  | some h => exact owned_stopJob ho h

theorem owned_scheduleReminder (cronValid : String → Bool) {s : State}
    (ho : Owned s.jobs s.scheduledJobs) (task : Option Task) :
    Owned (scheduleReminder cronValid s task).1.jobs
      (scheduleReminder cronValid s task).1.scheduledJobs := by
  cases task with
  | none => exact ho
  | some t =>
    cases ht : truthy t.reminder_cron with
    | false => rw [scheduleReminder_falsy cronValid s t ht]; exact ho
    | true =>
      by_cases hp : getProperty s.scheduledJobs t.id = .inherited
      · rw [scheduleReminder_inherited cronValid s t ht hp]; exact ho
      · cases hv : cronValid (t.reminder_cron.getD "") with
        | true =>
          rw [scheduleReminder_valid cronValid s t ht hp hv]
          exact owned_append (owned_stoppedJobs ho t.id) t.id
            (newJob t (t.reminder_cron.getD "")) rfl
        | false =>
          rw [scheduleReminder_invalid cronValid s t ht hp hv]
          exact owned_stoppedJobs ho t.id

theorem owned_step (cronValid : String → Bool) {s : State}
    (ho : Owned s.jobs s.scheduledJobs) (op : Op) :
    Owned (step cronValid s op).jobs (step cronValid s op).scheduledJobs := by
  cases op with
  | create t =>
    show Owned (taskCreate cronValid s t).1.jobs (taskCreate cronValid s t).1.scheduledJobs
    cases hd : s.tasks.any (fun r => decide (r.id = t.id)) with
    | true => rw [taskCreate_duplicate cronValid s t hd]; exact ho
    | false =>
      cases ht : truthy t.reminder_cron with
      | false => rw [taskCreate_falsy cronValid s t hd ht]; exact ho
      | true =>
        rw [taskCreate_truthy_fst cronValid s t hd ht]
        exact owned_scheduleReminder cronValid (s := insertRow s t) ho (some t)
  | update t =>
    show Owned (taskUpdate cronValid s t).1.jobs (taskUpdate cronValid s t).1.scheduledJobs
    rw [taskUpdate_fst]
    exact owned_scheduleReminder cronValid (s := updateRow s t) ho (some t)
  | delete id =>
    show Owned (taskDelete s id).1.jobs (taskDelete s id).1.scheduledJobs
    cases hp : getProperty s.scheduledJobs id with
    | job h =>
      rw [taskDelete_job s id h (getProperty_eq_job.mp hp)]
      exact owned_ownDelete (owned_stopJob ho h) id
    | inherited => rw [taskDelete_inherited s id hp]; exact ho
    | undefined => rw [taskDelete_undefined s id hp]; exact ho
  | schedule task => exact owned_scheduleReminder cronValid ho task

theorem owned_run (cronValid : String → Bool) {s : State}
    (ho : Owned s.jobs s.scheduledJobs) (ops : List Op) :
    Owned (run cronValid s ops).jobs (run cronValid s ops).scheduledJobs := by
  induction ops generalizing s with
  | nil => exact ho
  | cons op rest ih => exact ih (owned_step cronValid ho op)

theorem owned_init : Owned State.init.jobs State.init.scheduledJobs := by
  intro k h hk
  simp [State.init, ownGet] at hk

/-! ## Frame of `task-delete` for ids that are not inherited member names -/

theorem deleteRows_deleteRows (s : State) (id : String) :
    deleteRows (deleteRows s id) id = deleteRows s id := by
  simp [deleteRows, List.filter_filter]

/-- For an id that does not name a member of `Object.prototype`, in every
reachable state: `task-delete` returns `true`; every entry under another key,
and the job it points at, is unchanged; without an entry for the id the
registry and all jobs are unchanged; a second call changes nothing. -/
theorem taskDelete_frame (cronValid : String → Bool) (ops : List Op) (id : String)
    (hid : id ∉ objectPrototypeKeys) :
    (taskDelete (run cronValid State.init ops) id).2 = .ok true ∧
    (∀ k : String, k ≠ id →
      ownGet (taskDelete (run cronValid State.init ops) id).1.scheduledJobs k
        = ownGet (run cronValid State.init ops).scheduledJobs k ∧
      ∀ h : Nat, ownGet (run cronValid State.init ops).scheduledJobs k = some h →
        (taskDelete (run cronValid State.init ops) id).1.jobs[h]?
          = (run cronValid State.init ops).jobs[h]?) ∧
    (ownGet (run cronValid State.init ops).scheduledJobs id = none →
      (taskDelete (run cronValid State.init ops) id).1.scheduledJobs
        = (run cronValid State.init ops).scheduledJobs ∧
      (taskDelete (run cronValid State.init ops) id).1.jobs
        = (run cronValid State.init ops).jobs) ∧
    taskDelete (taskDelete (run cronValid State.init ops) id).1 id
      = ((taskDelete (run cronValid State.init ops) id).1, .ok true) := by
  have hown : Owned (run cronValid State.init ops).jobs
      (run cronValid State.init ops).scheduledJobs := owned_run cronValid owned_init ops
  generalize run cronValid State.init ops = s at hown
  cases hp : getProperty s.scheduledJobs id with
  | inherited => exact absurd (getProperty_eq_inherited.mp hp).2 hid
  | undefined =>
    have hg := (getProperty_eq_undefined.mp hp).1
    rw [taskDelete_undefined s id hp]
    refine ⟨rfl, fun k _ => ⟨rfl, fun h _ => rfl⟩, fun _ => ⟨rfl, rfl⟩, ?_⟩
    have hp2 : getProperty (deleteRows s id).scheduledJobs id = .undefined := hp
    rw [taskDelete_undefined _ id hp2, deleteRows_deleteRows]
  | job h =>
    have hg := getProperty_eq_job.mp hp
    rw [taskDelete_job s id h hg]
    refine ⟨rfl, ?_, ?_, ?_⟩
    · intro k hk
      refine ⟨?_, ?_⟩
      · show ownGet (ownDelete s.scheduledJobs id) k = ownGet s.scheduledJobs k
        rw [ownGet_ownDelete, if_neg hk]
      · intro i hi
        show (stopJob s.jobs h)[i]? = s.jobs[i]?
        rw [getElem?_stopJob]
        have hne : i ≠ h := by
          intro e
          subst e
          obtain ⟨j1, hj1, ho1⟩ := hown k i hi
          obtain ⟨j2, hj2, ho2⟩ := hown id i hg
          rw [hj1] at hj2
          cases hj2
          exact hk (ho1.symm.trans ho2)
        rw [if_neg hne]
    · intro hn
      rw [hn] at hg
      cases hg
    · have hnone : ownGet (ownDelete s.scheduledJobs id) id = none := by
        rw [ownGet_ownDelete, if_pos rfl]
      have hp2 : getProperty
          ({ deleteRows s id with jobs := stopJob s.jobs h,
                                  scheduledJobs := ownDelete s.scheduledJobs id } : State).scheduledJobs
          id = .undefined :=
        getProperty_eq_undefined.mpr ⟨hnone, hid⟩
      rw [taskDelete_undefined _ id hp2]
      simp [deleteRows, List.filter_filter]

theorem taskDelete_frame_witness :
    "A" ∉ objectPrototypeKeys ∧
    (taskDelete (run sampleCron State.init [.create taskA]) "A").2 = .ok true :=
  ⟨by decide, (taskDelete_frame sampleCron [.create taskA] "A" (by decide)).1⟩

/-! ## Reconciliation for ids that are not inherited member names -/

theorem ownGet_eq_none_iff (reg : List (String × Nat)) (k : String) :
    ownGet reg k = none ↔ k ∉ keys reg := by
  induction reg with
  | nil => simp [ownGet, keys]
  | cons p rest ih =>
    obtain ⟨a, v⟩ := p
    by_cases hak : a = k
    · simp [ownGet, keys, hak]
    · have hka : ¬ k = a := fun e => hak e.symm
      simp only [ownGet, if_neg hak, ih]
      simp [keys, hka]

theorem ownSet_of_none (reg : List (String × Nat)) (k : String) (h : Nat)
    (hn : ownGet reg k = none) : ownSet reg k h = reg ++ [(k, h)] := by
  induction reg with
  | nil => rfl
  | cons p rest ih =>
    obtain ⟨a, v⟩ := p
    by_cases hak : a = k
    · simp [ownGet, hak] at hn
    · simp only [ownGet, if_neg hak] at hn
      simp [ownSet, hak, ih hn]

theorem keys_ownSet_of_some (reg : List (String × Nat)) (k : String) (h i : Nat)
    (hs : ownGet reg k = some i) : keys (ownSet reg k h) = keys reg := by
  induction reg with
  | nil => simp [ownGet] at hs
  | cons p rest ih =>
    obtain ⟨a, v⟩ := p
    by_cases hak : a = k
    · simp [ownSet, keys, hak]
    · simp only [ownGet, if_neg hak] at hs
      have := ih hs
      simp only [keys] at this
      simp [ownSet, keys, hak, this]

theorem scheduleRows_keys (cronValid : String → Bool) (rows : List Task) (s : State)
    (hnd : (rows.map Task.id).Nodup)
    (hfresh : ∀ r ∈ rows, r.id ∉ keys s.scheduledJobs)
    (hpk : ∀ r ∈ rows, truthy r.reminder_cron = true → r.id ∉ objectPrototypeKeys) :
    (scheduleRows cronValid s rows).2 = .ok () ∧
    keys (scheduleRows cronValid s rows).1.scheduledJobs
      = keys s.scheduledJobs ++ (rows.filter (schedulable cronValid)).map Task.id := by
  induction rows generalizing s with
  | nil => simp [scheduleRows]
  | cons r rest ih =>
    have hnd2 : (rest.map Task.id).Nodup := (List.nodup_cons.mp hnd).2
    have hrnot : ∀ q ∈ rest, q.id ≠ r.id := by
      intro q hq e
      exact (List.nodup_cons.mp hnd).1 (e ▸ List.mem_map_of_mem Task.id hq)
    have hpk2 : ∀ q ∈ rest, truthy q.reminder_cron = true → q.id ∉ objectPrototypeKeys :=
      fun q hq => hpk q (List.mem_cons_of_mem r hq)
    have hnone : ownGet s.scheduledJobs r.id = none :=
      (ownGet_eq_none_iff _ _).mpr (hfresh r (List.mem_cons_self r rest))
    cases ht : truthy r.reminder_cron with
    | false =>
      have hsr := scheduleReminder_falsy cronValid s r ht
      have hns : schedulable cronValid r = false := by simp [schedulable, ht]
      simp only [scheduleRows, hsr]
      have := ih s hnd2 (fun q hq => hfresh q (List.mem_cons_of_mem r hq)) hpk2
      rw [List.filter_cons_of_neg (by simp [hns])]
      exact this
    | true =>
      have hp : getProperty s.scheduledJobs r.id ≠ .inherited := by
        intro e
        exact hpk r (List.mem_cons_self r rest) ht (getProperty_eq_inherited.mp e).2
      cases hv : cronValid (r.reminder_cron.getD "") with
      | false =>
        have hsr := scheduleReminder_invalid cronValid s r ht hp hv
        have hns : schedulable cronValid r = false := by simp [schedulable, ht, hv]
        simp only [scheduleRows, hsr]
        rw [List.filter_cons_of_neg (by simp [hns])]
        exact ih _ hnd2 (fun q hq => hfresh q (List.mem_cons_of_mem r hq)) hpk2
      | true =>
        have hsr := scheduleReminder_valid cronValid s r ht hp hv
        have hys : schedulable cronValid r = true := by simp [schedulable, ht, hv]
        simp only [scheduleRows, hsr]
        rw [List.filter_cons_of_pos hys]
        have hk : keys (ownSet s.scheduledJobs r.id (stoppedJobs s r.id).length)
            = keys s.scheduledJobs ++ [r.id] := by
          rw [ownSet_of_none _ _ _ hnone]
          simp [keys]
        have := ih
          ({ s with jobs := stoppedJobs s r.id ++ [newJob r (r.reminder_cron.getD "")],
                    scheduledJobs := ownSet s.scheduledJobs r.id (stoppedJobs s r.id).length })
          hnd2
          (by
            intro q hq
            show q.id ∉ keys (ownSet s.scheduledJobs r.id (stoppedJobs s r.id).length)
            rw [hk]
            intro hmem
            rcases List.mem_append.mp hmem with h1 | h1
            · exact hfresh q (List.mem_cons_of_mem r hq) h1
            · exact hrnot q hq (by simpa using h1))
          hpk2
        refine ⟨this.1, ?_⟩
        rw [this.2]
        show keys (ownSet s.scheduledJobs r.id (stoppedJobs s r.id).length) ++ _ = _
        rw [hk]
        simp

/-- Starting from an empty registry, for rows with pairwise distinct ids none
of which (among those with a present schedule) names a member of
`Object.prototype`: `loadAndScheduleAll` returns and the set of keys of
`scheduledJobs` is exactly the set of ids of the rows whose schedule is present
and accepted. -/
theorem loadAndScheduleAll_keys (cronValid : String → Bool) (s : State)
    (hempty : s.scheduledJobs = [])
    (hnd : (s.tasks.map Task.id).Nodup)
    (hpk : ∀ r ∈ s.tasks, truthy r.reminder_cron = true → r.id ∉ objectPrototypeKeys) :
    (loadAndScheduleAll cronValid s).2 = .ok () ∧
    ∀ k : String, k ∈ keys (loadAndScheduleAll cronValid s).1.scheduledJobs ↔
      ∃ r ∈ s.tasks, r.id = k ∧ truthy r.reminder_cron = true ∧
        cronValid (r.reminder_cron.getD "") = true := by
  have := scheduleRows_keys cronValid s.tasks s hnd (by simp [hempty, keys]) hpk
  refine ⟨this.1, ?_⟩
  intro k
  unfold loadAndScheduleAll
  rw [this.2, hempty]
  simp only [keys, List.map_nil, List.nil_append, List.mem_map, List.mem_filter, schedulable,
    Bool.and_eq_true]
  constructor
  · rintro ⟨r, ⟨hr, h1, h2⟩, hk⟩
    exact ⟨r, hr, hk, h1, h2⟩
  · rintro ⟨r, hr, hk, h1, h2⟩
    exact ⟨r, ⟨hr, h1, h2⟩, hk⟩

theorem loadAndScheduleAll_keys_witness :
    keys (loadAndScheduleAll sampleCron { State.init with tasks := exampleRows }).1.scheduledJobs
      = ["A"] ∧
    (loadAndScheduleAll sampleCron { State.init with tasks := exampleRows }).2 = .ok () ∧
    ∀ k : String,
      k ∈ keys (loadAndScheduleAll sampleCron
        { State.init with tasks := exampleRows }).1.scheduledJobs ↔
      ∃ r ∈ exampleRows, r.id = k ∧ truthy r.reminder_cron = true ∧
        sampleCron (r.reminder_cron.getD "") = true :=
  ⟨by decide,
    loadAndScheduleAll_keys sampleCron { State.init with tasks := exampleRows } rfl
      (by decide) (by decide)⟩

/-! ## Repeating a `task-update` for ids that are not inherited member names -/

theorem taskUpdate_valid (cronValid : String → Bool) (s : State) (t : Task)
    (ht : truthy t.reminder_cron = true)
    (hv : cronValid (t.reminder_cron.getD "") = true)
    (hp : getProperty s.scheduledJobs t.id ≠ .inherited) :
    taskUpdate cronValid s t =
      ({ updateRow s t with
           jobs := stoppedJobs s t.id ++ [newJob t (t.reminder_cron.getD "")],
           scheduledJobs := ownSet s.scheduledJobs t.id (stoppedJobs s t.id).length },
       .ok true) := by
  rw [taskUpdate_eq, scheduleReminder_valid cronValid (updateRow s t) t ht hp hv]
  rfl

/-- For a task with an accepted schedule whose id does not name a member of
`Object.prototype`, in every reachable state: a second identical `task-update`
leaves the keys of `scheduledJobs` as the first left them, stops the job that
the first call created, registers a new running job, and that job is the only
running job created for the id. -/
theorem taskUpdate_twice (cronValid : String → Bool) (ops : List Op) (t : Task)
    (ht : truthy t.reminder_cron = true)
    (hv : cronValid (t.reminder_cron.getD "") = true)
    (hid : t.id ∉ objectPrototypeKeys) :
    (taskUpdate cronValid (run cronValid State.init ops) t).2 = .ok true ∧
    (taskUpdate cronValid (taskUpdate cronValid (run cronValid State.init ops) t).1 t).2
      = .ok true ∧
    keys (taskUpdate cronValid
        (taskUpdate cronValid (run cronValid State.init ops) t).1 t).1.scheduledJobs
      = keys (taskUpdate cronValid (run cronValid State.init ops) t).1.scheduledJobs ∧
    ownGet (taskUpdate cronValid (run cronValid State.init ops) t).1.scheduledJobs t.id
      = some (run cronValid State.init ops).jobs.length ∧
    (taskUpdate cronValid
        (taskUpdate cronValid (run cronValid State.init ops) t).1 t).1.jobs[
          (run cronValid State.init ops).jobs.length]?.map Job.running = some false ∧
    ownGet (taskUpdate cronValid
        (taskUpdate cronValid (run cronValid State.init ops) t).1 t).1.scheduledJobs t.id
      = some ((run cronValid State.init ops).jobs.length + 1) ∧
    (taskUpdate cronValid
        (taskUpdate cronValid (run cronValid State.init ops) t).1 t).1.jobs[
          (run cronValid State.init ops).jobs.length + 1]?
      = some (newJob t (t.reminder_cron.getD "")) ∧
    (taskUpdate cronValid
        (taskUpdate cronValid (run cronValid State.init ops) t).1 t).1.jobs.countP
          (fun j => decide (j.owner = t.id) && j.running) = 1 := by
  have hinv : (run cronValid State.init ops).Inv := inv_run cronValid inv_init ops
  generalize run cronValid State.init ops = s at hinv
  have hinv2 : (taskUpdate cronValid (taskUpdate cronValid s t).1 t).1.Inv :=
    inv_taskUpdate cronValid (inv_taskUpdate cronValid hinv t) t
  have hp : getProperty s.scheduledJobs t.id ≠ .inherited :=
    fun e => hid (getProperty_eq_inherited.mp e).2
  have h1 := taskUpdate_valid cronValid s t ht hv hp
  have hlen : (stoppedJobs s t.id).length = s.jobs.length := length_stoppedJobs s t.id
  rw [hlen] at h1
  rw [h1] at hinv2 ⊢
  have hg1 : ownGet (ownSet s.scheduledJobs t.id s.jobs.length) t.id = some s.jobs.length := by
    rw [ownGet_ownSet, if_pos rfl]
  have hp1 : getProperty
      ({ updateRow s t with
           jobs := stoppedJobs s t.id ++ [newJob t (t.reminder_cron.getD "")],
           scheduledJobs := ownSet s.scheduledJobs t.id s.jobs.length } : State).scheduledJobs
      t.id ≠ .inherited := by
    intro e
    exact hid (getProperty_eq_inherited.mp e).2
  have h2 := taskUpdate_valid cronValid _ t ht hv hp1
  have hst : stoppedJobs
      ({ updateRow s t with
           jobs := stoppedJobs s t.id ++ [newJob t (t.reminder_cron.getD "")],
           scheduledJobs := ownSet s.scheduledJobs t.id s.jobs.length } : State) t.id
      = stopJob (stoppedJobs s t.id ++ [newJob t (t.reminder_cron.getD "")]) s.jobs.length := by
    show (match ownGet (ownSet s.scheduledJobs t.id s.jobs.length) t.id with
      | some h => stopJob (stoppedJobs s t.id ++ [newJob t (t.reminder_cron.getD "")]) h
      | none => stoppedJobs s t.id ++ [newJob t (t.reminder_cron.getD "")]) = _
    rw [hg1]
  rw [hst] at h2
  rw [h2] at hinv2 ⊢
  have hlen2 : (stopJob (stoppedJobs s t.id ++ [newJob t (t.reminder_cron.getD "")])
      s.jobs.length).length = s.jobs.length + 1 := by
    rw [length_stopJob, List.length_append, hlen]
    rfl
  have hnew : (stopJob (stoppedJobs s t.id ++ [newJob t (t.reminder_cron.getD "")])
        s.jobs.length ++ [newJob t (t.reminder_cron.getD "")])[s.jobs.length + 1]?
      = some (newJob t (t.reminder_cron.getD "")) := by
    rw [List.getElem?_append_right (by omega), hlen2]
    simp
  refine ⟨rfl, rfl, ?_, hg1, ?_, ?_, ?_, ?_⟩
  · exact keys_ownSet_of_some _ _ _ _ hg1
  · show (stopJob (stoppedJobs s t.id ++ [newJob t (t.reminder_cron.getD "")])
        s.jobs.length ++ [newJob t (t.reminder_cron.getD "")])[s.jobs.length]?.map Job.running
      = some false
    rw [List.getElem?_append_left (by omega), getElem?_stopJob, if_pos rfl,
      List.getElem?_append_right (by omega), hlen]
    simp
  · show ownGet (ownSet (ownSet s.scheduledJobs t.id s.jobs.length) t.id _) t.id = _
    rw [ownGet_ownSet, if_pos rfl, hlen2]
  · exact hnew
  · apply Nat.le_antisymm (live_countP_le_one hinv2 t.id)
    apply List.countP_pos_iff.mpr
    refine ⟨newJob t (t.reminder_cron.getD ""), ?_, by simp [newJob]⟩
    exact List.getElem?_mem hnew

theorem taskUpdate_twice_witness :
    truthy taskA.reminder_cron = true ∧ taskA.id ∉ objectPrototypeKeys ∧
    (taskUpdate sampleCron
        (taskUpdate sampleCron (run sampleCron State.init []) taskA).1 taskA).1.jobs.countP
          (fun j => decide (j.owner = taskA.id) && j.running) = 1 :=
  ⟨by decide, by decide,
    (taskUpdate_twice sampleCron [] taskA (by decide) (by decide) (by decide)).2.2.2.2.2.2.2⟩

/-! ## What the handlers return -/

theorem not_inherited_of_not_mem (reg : List (String × Nat)) {id : String}
    (hid : id ∉ objectPrototypeKeys) : getProperty reg id ≠ .inherited :=
  fun e => hid (getProperty_eq_inherited.mp e).2

theorem taskUpdate_invalid (cronValid : String → Bool) (s : State) (t : Task)
    (ht : truthy t.reminder_cron = true)
    (hv : cronValid (t.reminder_cron.getD "") = false)
    (hp : getProperty s.scheduledJobs t.id ≠ .inherited) :
    taskUpdate cronValid s t =
      ({ updateRow s t with jobs := stoppedJobs s t.id,
                            consoleErrors := s.consoleErrors ++ [t.id] }, .ok true) := by
  rw [taskUpdate_eq, scheduleReminder_invalid cronValid (updateRow s t) t ht hp hv]
  rfl

theorem taskCreate_invalid (cronValid : String → Bool) (s : State) (t : Task)
    (hd : s.tasks.any (fun r => decide (r.id = t.id)) = false)
    (ht : truthy t.reminder_cron = true)
    (hv : cronValid (t.reminder_cron.getD "") = false)
    (hp : getProperty s.scheduledJobs t.id ≠ .inherited) :
    taskCreate cronValid s t =
      ({ insertRow s t with jobs := stoppedJobs s t.id,
                            consoleErrors := s.consoleErrors ++ [t.id] }, .ok true) := by
  rw [taskCreate_truthy cronValid s t hd ht,
    scheduleReminder_invalid cronValid (insertRow s t) t ht hp hv]
  rfl

theorem taskCreate_valid (cronValid : String → Bool) (s : State) (t : Task)
    (hd : s.tasks.any (fun r => decide (r.id = t.id)) = false)
    (ht : truthy t.reminder_cron = true)
    (hv : cronValid (t.reminder_cron.getD "") = true)
    (hp : getProperty s.scheduledJobs t.id ≠ .inherited) :
    taskCreate cronValid s t =
      ({ insertRow s t with
           jobs := stoppedJobs s t.id ++ [newJob t (t.reminder_cron.getD "")],
           scheduledJobs := ownSet s.scheduledJobs t.id (stoppedJobs s t.id).length },
       .ok true) := by
  rw [taskCreate_truthy cronValid s t hd ht,
    scheduleReminder_valid cronValid (insertRow s t) t ht hp hv]
  rfl

/-- C5 (amended). Take a task `bad` whose `reminder_cron` is present but
rejected by `cron.schedule` and a task `good` whose `reminder_cron` is present
and accepted, neither id naming a member inherited from `Object.prototype`.
Then task-update returns `true` for both, and so does task-create when no row
has the id yet: the caller cannot tell the failure from success. The rejection
is reported through `console.error` only (the id is appended to the console
log, which the accepted task leaves unchanged). -/
theorem invalid_schedule_logged_only (cronValid : String → Bool) (s c : State)
    (bad good : Task)
    (hbt : truthy bad.reminder_cron = true)
    (hbv : cronValid (bad.reminder_cron.getD "") = false)
    (hbid : bad.id ∉ objectPrototypeKeys)
    (hgt : truthy good.reminder_cron = true)
    (hgv : cronValid (good.reminder_cron.getD "") = true)
    (hgid : good.id ∉ objectPrototypeKeys)
    (hbd : c.tasks.any (fun r => decide (r.id = bad.id)) = false)
    (hgd : c.tasks.any (fun r => decide (r.id = good.id)) = false) :
    (taskUpdate cronValid s bad).2 = .ok true ∧
    (taskUpdate cronValid s good).2 = .ok true ∧
    (taskUpdate cronValid s bad).1.consoleErrors = s.consoleErrors ++ [bad.id] ∧
    (taskUpdate cronValid s good).1.consoleErrors = s.consoleErrors ∧
    (taskCreate cronValid c bad).2 = .ok true ∧
    (taskCreate cronValid c good).2 = .ok true ∧
    (taskCreate cronValid c bad).1.consoleErrors = c.consoleErrors ++ [bad.id] ∧
    (taskCreate cronValid c good).1.consoleErrors = c.consoleErrors := by
  rw [taskUpdate_invalid cronValid s bad hbt hbv (not_inherited_of_not_mem _ hbid),
    taskUpdate_valid cronValid s good hgt hgv (not_inherited_of_not_mem _ hgid),
    taskCreate_invalid cronValid c bad hbd hbt hbv (not_inherited_of_not_mem _ hbid),
    taskCreate_valid cronValid c good hgd hgt hgv (not_inherited_of_not_mem _ hgid)]
  exact ⟨rfl, rfl, rfl, rfl, rfl, rfl, rfl, rfl⟩

theorem invalid_schedule_logged_only_witness :
    (truthy taskBogus.reminder_cron = true ∧
      sampleCron (taskBogus.reminder_cron.getD "") = false ∧
      taskBogus.id ∉ objectPrototypeKeys ∧
      truthy taskA.reminder_cron = true ∧
      sampleCron (taskA.reminder_cron.getD "") = true ∧
      taskA.id ∉ objectPrototypeKeys ∧
      State.init.tasks.any (fun r => decide (r.id = taskBogus.id)) = false ∧
      State.init.tasks.any (fun r => decide (r.id = taskA.id)) = false) ∧
    ((taskUpdate sampleCron stateA taskBogus).2 = .ok true ∧
      (taskUpdate sampleCron stateA taskA).2 = .ok true ∧
      (taskUpdate sampleCron stateA taskBogus).1.consoleErrors
        = stateA.consoleErrors ++ [taskBogus.id] ∧
      (taskUpdate sampleCron stateA taskA).1.consoleErrors = stateA.consoleErrors ∧
      (taskCreate sampleCron State.init taskBogus).2 = .ok true ∧
      (taskCreate sampleCron State.init taskA).2 = .ok true ∧
      (taskCreate sampleCron State.init taskBogus).1.consoleErrors
        = State.init.consoleErrors ++ [taskBogus.id] ∧
      (taskCreate sampleCron State.init taskA).1.consoleErrors = State.init.consoleErrors) :=
  ⟨by decide,
    invalid_schedule_logged_only sampleCron stateA State.init taskBogus taskA
      (by decide) (by decide) (by decide) (by decide) (by decide) (by decide)
      (by decide) (by decide)⟩

/-! ## The handlers on concrete calls -/

theorem stateA_eq :
    stateA =
      { tasks := [{ id := "A", title := "Stand-up", desc := some "",
                    reminder_cron := some "*/5 * * * *" }],
        subtasks := [],
        jobs := [{ owner := "A", expr := "*/5 * * * *", title := "Hatırlatma: Stand-up",
                   body := "", running := true }],
        scheduledJobs := [("A", 0)],
        consoleErrors := [] } := by
  decide

/-- C3. A task-update that clears `reminder_cron` of a task with a running job
returns at the first line of `scheduleReminder`: the job stays registered and
running, although the stored row has no schedule any more and a restart would
not schedule it. -/
theorem update_to_empty_keeps_job :
    ownGet stateA.scheduledJobs "A" = some 0 ∧
    stateA.jobs[0]?.map Job.running = some true ∧
    taskUpdate sampleCron stateA { taskA with reminder_cron := none } =
      ({ stateA with tasks := [{ id := "A", title := "Stand-up", desc := some "",
                                 reminder_cron := none }] }, .ok true) ∧
    ownGet (taskUpdate sampleCron stateA { taskA with reminder_cron := none }).1.scheduledJobs "A"
      = some 0 ∧
    (taskUpdate sampleCron stateA { taskA with reminder_cron := none }).1.jobs[0]?.map Job.running
      = some true ∧
    (loadAndScheduleAll sampleCron
      (taskUpdate sampleCron stateA { taskA with reminder_cron := none }).1.restart).1.scheduledJobs
      = [] := by
  decide

/-- C6. A task-update that carries a rejected `reminder_cron` for a task with a
running job stops that job and leaves it in `scheduledJobs`: the registry then
stores a stopped job. -/
theorem invalid_update_leaves_stopped_job :
    taskUpdate sampleCron stateA taskBogus =
      ({ tasks := [{ id := "A", title := "Stand-up", desc := some "",
                     reminder_cron := some "bogus" }],
         subtasks := [],
         jobs := [{ owner := "A", expr := "*/5 * * * *", title := "Hatırlatma: Stand-up",
                    body := "", running := false }],
         scheduledJobs := [("A", 0)],
         consoleErrors := ["A"] }, .ok true) ∧
    ownGet (taskUpdate sampleCron stateA
      taskBogus).1.scheduledJobs "A" = some 0 ∧
    (taskUpdate sampleCron stateA
      taskBogus).1.jobs[0]?.map Job.running = some false := by
  decide

/-- C10. A task-update for an id that has no row changes no row and still
schedules a reminder: a running job is registered for an id that is not in the
`tasks` table. -/
theorem update_without_row_leaves_job :
    taskUpdate sampleCron State.init taskA =
      ({ tasks := [], subtasks := [],
         jobs := [{ owner := "A", expr := "*/5 * * * *", title := "Hatırlatma: Stand-up",
                    body := "", running := true }],
         scheduledJobs := [("A", 0)],
         consoleErrors := [] }, .ok true) := by
  decide

/-- C5, as stated, fails: on a fresh process both handlers return `true` for a
task whose `reminder_cron` is rejected, exactly as for an accepted one. -/
theorem invalid_schedule_not_surfaced :
    sampleCron "bogus" = false ∧ sampleCron "*/5 * * * *" = true ∧
    (taskCreate sampleCron State.init taskBogus).2 = .ok true ∧
    (taskCreate sampleCron State.init taskA).2 = .ok true ∧
    (taskUpdate sampleCron stateA taskBogus).2 = .ok true ∧
    (taskUpdate sampleCron stateA taskA).2 = .ok true := by
  decide

/-- C8. `task-delete` for the id `constructor` on a fresh process: the read
`scheduledJobs[id]` finds the inherited member, which has no `stop` method, so
the handler throws instead of returning `true`. -/
theorem delete_inherited_key_throws :
    getProperty State.init.scheduledJobs "constructor" = .inherited ∧
    taskDelete State.init "constructor" = (State.init, .error .typeError) := by
  decide

/-- C7. `task-update` with a task whose id is `toString`, on a fresh process
and for any validator: both calls throw before `cron.schedule` is reached, so
no job is created for that id. -/
theorem update_inherited_key_throws (cronValid : String → Bool) :
    taskUpdate cronValid State.init
        { id := "toString", title := "T", desc := none, reminder_cron := some "*/5 * * * *" }
      = (State.init, .error .typeError) ∧
    taskUpdate cronValid
        (taskUpdate cronValid State.init
          { id := "toString", title := "T", desc := none,
            reminder_cron := some "*/5 * * * *" }).1
        { id := "toString", title := "T", desc := none, reminder_cron := some "*/5 * * * *" }
      = (State.init, .error .typeError) ∧
    (taskUpdate cronValid
        (taskUpdate cronValid State.init
          { id := "toString", title := "T", desc := none,
            reminder_cron := some "*/5 * * * *" }).1
        { id := "toString", title := "T", desc := none,
          reminder_cron := some "*/5 * * * *" }).1.jobs = [] := by
  refine ⟨?_, ?_, ?_⟩ <;> rfl

/-- C2. The handler `task-create` stores a row with id `constructor` and then
throws; after a restart `loadAndScheduleAll` throws on that row, for any
validator, and the row `A` behind it is never scheduled. -/
theorem reconcile_inherited_key_throws (cronValid : String → Bool) :
    (taskCreate cronValid State.init
        { id := "constructor", title := "T", desc := none,
          reminder_cron := some "*/5 * * * *" }) =
      ({ State.init with tasks := [{ id := "constructor", title := "T", desc := some "",
                                     reminder_cron := some "*/5 * * * *" }] },
       .error .typeError) ∧
    loadAndScheduleAll cronValid
        { State.init with tasks :=
            [{ id := "constructor", title := "T", desc := some "",
               reminder_cron := some "*/5 * * * *" },
             { id := "A", title := "Stand-up", desc := some "",
               reminder_cron := some "*/5 * * * *" }] } =
      ({ State.init with tasks :=
            [{ id := "constructor", title := "T", desc := some "",
               reminder_cron := some "*/5 * * * *" },
             { id := "A", title := "Stand-up", desc := some "",
               reminder_cron := some "*/5 * * * *" }] },
       .error .typeError) := by
  refine ⟨?_, ?_⟩ <;> rfl

end WeeklyPlanner
